import Mathlib

/-!
# Verification of the attendance / face-recognition workflow

A shallow embedding of the orchestration logic of `attendence.py`:
the reference-set loader, the embedding extractor, the attendance ledger
(CSV initialisation, debounced recording) and the per-frame / per-face
recognition kernel.  The external vision collaborators (face detection,
embedding extraction, the boolean match predicate and the numeric distance
function) are parameters, exactly as the spec treats them: opaque functions
the code composes.  Wall-clock instants are passed explicitly (the code
reads `datetime.now()`; here every operation receives the instant it
observes), with the absolute position of an instant measured in
microseconds, the resolution of the source's datetime values.
-/

/-! ## Python string `replace(".jpg", "")` and suffix stripping -/

/-- The pattern removed from a label: the characters of `".jpg"`. -/
def jpgPat : List Char := ['.', 'j', 'p', 'g']

/-- One left-to-right pass removing each leftmost, non-overlapping occurrence
of `jpgPat`, fuelled so the recursion is structural.  At each character the
scanner either consumes a whole occurrence or keeps the character; fuel at
least the length of the list is always enough. -/
def stripJpgAux : Nat → List Char → List Char
  | 0, l => l
  | _ + 1, [] => []
  | fuel + 1, c :: rest =>
    if c :: rest.take 3 = jpgPat then stripJpgAux fuel (rest.drop 3)
    else c :: stripJpgAux fuel rest

/-- Embedding of Python's `s.replace(".jpg", "")` (line 138 of
`attendence.py`): every leftmost, non-overlapping occurrence of `".jpg"`
is removed in a single left-to-right scan of `s`. -/
def pyRemoveJpg (s : String) : String := String.mk (stripJpgAux s.data.length s.data)

/-- Does `jpgPat` occur anywhere in the list? -/
def hasJpg : List Char → Bool
  | [] => false
  | c :: rest => (if c :: rest.take 3 = jpgPat then true else hasJpg rest)

/-- The spec's reading of line 138: strip `".jpg"` only when it is a trailing
suffix, leaving every other label unchanged. -/
def stripTrailingJpg (s : String) : String :=
  if 4 ≤ s.data.length ∧ s.data.drop (s.data.length - 4) = jpgPat then
    String.mk (s.data.take (s.data.length - 4))
  else s

/-! ## Instants and the CSV date/time rendering -/

/-- An instant as the code observes it with `datetime.now()`: the calendar
fields that `strftime` renders, together with the instant's absolute
position on the time line in microseconds (the resolution of the source's
datetime values), which is what datetime subtraction compares. -/
structure DateTime where
  year : Nat
  month : Nat
  day : Nat
  hour : Nat
  minute : Nat
  second : Nat
  absMicro : Nat
deriving DecidableEq

/-- The numeric value of a decimal digit character, if it is one. -/
def digitVal (c : Char) : Option Nat :=
  if '0' ≤ c ∧ c ≤ '9' then some (c.toNat - '0'.toNat) else none

/-- Two-digit zero-padded decimal rendering, as `strftime` renders
`%m`, `%d`, `%H`, `%M`, `%S` for their in-range values. -/
def pad2 (n : Nat) : List Char := [Nat.digitChar (n / 10), Nat.digitChar (n % 10)]

/-- Four-digit zero-padded decimal rendering, as `strftime` renders `%Y`
for the years a running clock produces. -/
def pad4 (n : Nat) : List Char :=
  [Nat.digitChar (n / 1000), Nat.digitChar (n / 100 % 10),
   Nat.digitChar (n / 10 % 10), Nat.digitChar (n % 10)]

/-- `now.strftime("%Y-%m-%d")` (line 92). -/
def formatDate (now : DateTime) : String :=
  String.mk (pad4 now.year ++ '-' :: (pad2 now.month ++ '-' :: pad2 now.day))

/-- `now.strftime("%H:%M:%S")` (line 93). -/
def formatTime (now : DateTime) : String :=
  String.mk (pad2 now.hour ++ ':' :: (pad2 now.minute ++ ':' :: pad2 now.second))

/-- Read a `YYYY-MM-DD` field back into its year, month and day. -/
def parseDate (s : String) : Option (Nat × Nat × Nat) :=
  match s.data with
  | [y1, y2, y3, y4, s1, m1, m2, s2, d1, d2] =>
    if s1 = '-' ∧ s2 = '-' then
      match digitVal y1, digitVal y2, digitVal y3, digitVal y4,
            digitVal m1, digitVal m2, digitVal d1, digitVal d2 with
      | some a, some b, some c, some d, some e, some f, some g, some h =>
        some (1000 * a + 100 * b + 10 * c + d, 10 * e + f, 10 * g + h)
      | _, _, _, _, _, _, _, _ => none
    else none
  | _ => none

/-- Read an `HH:MM:SS` field back into its hour, minute and second. -/
def parseTime (s : String) : Option (Nat × Nat × Nat) :=
  match s.data with
  | [h1, h2, s1, m1, m2, s2, c1, c2] =>
    if s1 = ':' ∧ s2 = ':' then
      match digitVal h1, digitVal h2, digitVal m1, digitVal m2,
            digitVal c1, digitVal c2 with
      | some a, some b, some e, some f, some g, some h =>
        some (10 * a + b, 10 * e + f, 10 * g + h)
      | _, _, _, _, _, _ => none
    else none
  | _ => none

/-! ## The attendance ledger -/

/-- `initialize_csv` (lines 61-71): the CSV file modelled by its rows,
`none` standing for an absent file.  An absent file is created holding
exactly the header row; an existing file is left exactly as it is. -/
def initialize_csv : Option (List (List String)) → Option (List (List String))
  | none => some [["Name", "Date", "Time"]]
  | some rows => some rows

/-- The ledger's mutable state: the rows of the CSV file the code appends
to, and the in-memory last-seen map (`attendance_records`). -/
structure LedgerState where
  rows : List (List String)
  records : String → Option DateTime

/-- The row `[detected_person, date_str, time_str]` written at line 98. -/
def csvRow (detected_person : String) (now : DateTime) : List String :=
  [detected_person, formatDate now, formatTime now]

/-- The guard of line 88: the person is absent from the map, or at least one
second (in microseconds) has elapsed since the stored instant.  Natural
subtraction truncates at zero, which agrees with the source: a negative
datetime difference is also `< timedelta(seconds=1)`. -/
def shouldRecord (detected_person : String) (now : DateTime)
    (records : String → Option DateTime) : Bool :=
  match records detected_person with
  | none => true
  | some last => decide (1000000 ≤ now.absMicro - last.absMicro)

/-- `record_attendance` (lines 75-98), the observed instant passed in
explicitly: when the debounce guard passes, the last-seen map entry is set
to `now` and the formatted row is appended; otherwise nothing changes. -/
def record_attendance (detected_person : String) (now : DateTime)
    (st : LedgerState) : LedgerState :=
  if shouldRecord detected_person now st.records then
    { rows := st.rows ++ [csvRow detected_person now],
      records := fun n => if n = detected_person then some now else st.records n }
  else st

/-! ## The recognition pipeline -/

section Pipeline

variable {Image Emb : Type}

/-- `load_images_and_labels` (lines 22-37): for each file of the directory
listing, decode the image and append it, and append the raw filename to the
parallel label list. -/
def load_images_and_labels (decode : String → Image) (files : List String) :
    List Image × List String :=
  files.foldl (fun acc file => (acc.1 ++ [decode file], acc.2 ++ [file])) ([], [])

/-- `encode_faces` (lines 41-57): for each image keep only the first
embedding the collaborator returns; an image with zero detected faces makes
the indexing `[0]` raise, which propagates. -/
def encode_faces (encoder : Image → List Emb) : List Image → Except String (List Emb)
  | [] => .ok []
  | image :: rest =>
    match encoder image with
    | [] => .error "list index out of range"
    | e :: _ =>
      match encode_faces encoder rest with
      | .ok es => .ok (e :: es)
      | .error msg => .error msg

/-- `face_recognition.compare_faces(face_encodings, face_encoding)`
(line 130): one boolean per reference embedding, from the collaborator's
match predicate. -/
def compare_faces (matchPred : Emb → Emb → Bool) (refs : List Emb) (q : Emb) :
    List Bool :=
  refs.map (fun r => matchPred r q)

/-- `face_recognition.face_distance(face_encodings, face_encoding)`
(line 131): one distance per reference embedding. -/
def face_distance_list (d : Emb → Emb → ℚ) (refs : List Emb) (q : Emb) :
    List ℚ :=
  refs.map (fun r => d r q)

/-- `face_match.index(True) if True in face_match else None` (line 132). -/
def best_match_index (matchPred : Emb → Emb → Bool) (refs : List Emb) (q : Emb) :
    Option Nat :=
  let face_match := compare_faces matchPred refs q
  if true ∈ face_match then some (face_match.indexOf true) else none

/-- Lines 130-141, the per-face recognition kernel of `process_frame`:
the chosen display label, and the ledger state after the conditional
`record_attendance` call. -/
def process_face (matchPred : Emb → Emb → Bool) (d : Emb → Emb → ℚ)
    (refs : List Emb) (labels : List String) (face_score : ℚ)
    (q : Emb) (now : DateTime) (st : LedgerState) : String × LedgerState :=
  let face_distance := face_distance_list d refs q
  match best_match_index matchPred refs q with
  | some i =>
    if face_distance.getD i 0 < face_score then
      let detected_person := pyRemoveJpg (labels.getD i "")
      (detected_person, record_attendance detected_person now st)
    else ("Unknown", st)
  | none => ("Unknown", st)

/-- A frame: the underlying image (opaque to this logic) and the shapes the
code has drawn onto its buffer, each an `(x1, y1, x2, y2)` box in original
coordinates carrying the label text (lines 144-146). -/
structure Frame where
  image : Nat
  boxes : List ((Nat × Nat × Nat × Nat) × String)

/-- `int(coord / scale)` (line 135): a detection coordinate computed in the
downscaled image, mapped back to the original coordinate space. -/
def scaleBack (scale : ℚ) (n : Nat) : Nat := (Rat.floor ((n : ℚ) / scale)).toNat

/-- `process_frame` (lines 102-151).  The detection collaborator (lines
125-126, `face_locations` plus `face_encodings` on the downscaled frame)
either yields located faces with their embeddings, in detection coordinates
`(y1, x2, y2, x1)`, or raises; a raise is caught, a message is printed
(returned here as the log) and the frame comes back untouched.  Otherwise
each face is recognised by `process_face` and annotated. -/
def process_frame (detector : Nat → Except String (List ((Nat × Nat × Nat × Nat) × Emb)))
    (matchPred : Emb → Emb → Bool) (d : Emb → Emb → ℚ)
    (refs : List Emb) (labels : List String)
    (now : DateTime) (scale : ℚ) (face_score : ℚ)
    (frame : Frame) (st : LedgerState) : Frame × LedgerState × List String :=
  match detector frame.image with
  | .error e => (frame, st, ["No Face Detected " ++ e])
  | .ok faces =>
    let out := faces.foldl
      (fun (acc : Frame × LedgerState) face =>
        let (loc, q) := face
        let (y1, x2, y2, x1) := loc
        let y1 := scaleBack scale y1
        let x2 := scaleBack scale x2
        let y2 := scaleBack scale y2
        let x1 := scaleBack scale x1
        let (detected_person, st') :=
          process_face matchPred d refs labels face_score q now acc.2
        ({ image := acc.1.image,
           boxes := acc.1.boxes ++ [((x1, y1, x2, y2), detected_person)] }, st'))
      (frame, st)
    (out.1, out.2, [])

end Pipeline

/-! ## Concrete collaborators and states used to evaluate the development -/

/-- A match predicate flagging every reference. -/
def mpAll : Nat → Nat → Bool := fun _ _ => true

/-- A distance function whose minimum over `[0, 1]` is at reference `1`. -/
def dSecondCloser : Nat → Nat → ℚ := fun r _ => if r = 0 then 4 else 1

/-- A concrete observed instant. -/
def dt0 : DateTime := ⟨2024, 10, 12, 9, 30, 5, 1000000000⟩

/-- A fresh ledger: no rows, nobody seen yet. -/
def st0 : LedgerState := ⟨[], fun _ => none⟩

/-- The first index attaining the minimum of a distance list, the spec's
`argmin(distance(R, q))`. -/
def argminIdx : List ℚ → Option Nat
  | [] => none
  | x :: xs => some ((x :: xs).indexOf (xs.foldl min x))

example : pyRemoveJpg "a.jpg.jpg" = "a" := by decide
example : pyRemoveJpg "alice.jpg" = "alice" := by decide
example : stripTrailingJpg "a.jpg.jpg" = "a.jpg" := by decide
example : argminIdx (face_distance_list dSecondCloser [0, 1] 0) = some 1 := by decide
example : (process_face mpAll dSecondCloser [0, 1] ["A.jpg", "B.jpg"] 10 0 dt0 st0).1 = "A" := by
  decide
example : parseDate (formatDate dt0) = some (2024, 10, 12) := by decide
example : parseTime (formatTime dt0) = some (9, 30, 5) := by decide

/-! ## Helper lemmas -/

/-- Any fuel at least the length of the list gives the same scan result. -/
theorem stripJpgAux_congr :
    ∀ (fuel fuel' : Nat) (l : List Char), l.length ≤ fuel → l.length ≤ fuel' →
      stripJpgAux fuel l = stripJpgAux fuel' l := by
  intro fuel
  induction fuel with
  | zero =>
    intro fuel' l hl _
    have : l = [] := List.eq_nil_of_length_eq_zero (Nat.le_zero.mp hl)
    subst this
    cases fuel' <;> rfl
  | succ fuel ih =>
    intro fuel' l hl hl'
    cases l with
    | nil => cases fuel' <;> rfl
    | cons c rest =>
      cases fuel' with
      | zero => exact absurd hl' (by simp)
      | succ fuel' =>
        have h1 : rest.length ≤ fuel := by simp at hl; omega
        have h1' : rest.length ≤ fuel' := by simp at hl'; omega
        have hd : (rest.drop 3).length ≤ rest.length := by
          rw [List.length_drop]; omega
        simp only [stripJpgAux]
        split
        · exact ih fuel' (rest.drop 3) (le_trans hd h1) (le_trans hd h1')
        · exact congrArg _ (ih fuel' rest h1 h1')

/-- The scan at canonical fuel, one step at a time. -/
theorem stripJpg_cons (c : Char) (rest : List Char) :
    stripJpgAux (c :: rest).length (c :: rest) =
      if c :: rest.take 3 = jpgPat then stripJpgAux (rest.drop 3).length (rest.drop 3)
      else c :: stripJpgAux rest.length rest := by
  simp only [List.length_cons, stripJpgAux]
  split
  · exact stripJpgAux_congr rest.length (rest.drop 3).length (rest.drop 3)
      (by rw [List.length_drop]; omega) le_rfl
  · rfl

/-- When `".jpg"` occurs nowhere in `base`, the scan of `base ++ ".jpg"`
keeps all of `base` and removes exactly the appended suffix. -/
theorem stripJpg_append_jpg :
    ∀ base : List Char, hasJpg base = false →
      stripJpgAux (base ++ jpgPat).length (base ++ jpgPat) = base := by
  intro base
  induction base with
  | nil => intro _; decide
  | cons c b ih =>
    intro h
    have hnostart : ¬ c :: b.take 3 = jpgPat := by
      intro hc
      simp only [hasJpg] at h
      rw [if_pos hc] at h
      exact absurd h (by decide)
    have hb : hasJpg b = false := by
      simp only [hasJpg] at h
      split at h
      · exact absurd h (by decide)
      · exact h
    have hcons : (c :: b) ++ jpgPat = c :: (b ++ jpgPat) := rfl
    rw [hcons, stripJpg_cons]
    have hcond : ¬ c :: (b ++ jpgPat).take 3 = jpgPat := by
      cases b with
      | nil =>
        intro hc
        injection hc with h1 h2
        exact absurd h2 (by decide)
      | cons x b1 =>
        cases b1 with
        | nil =>
          intro hc
          injection hc with h1 h2
          injection h2 with h3 h4
          exact absurd h4 (by decide)
        | cons y b2 =>
          cases b2 with
          | nil =>
            intro hc
            injection hc with h1 h2
            injection h2 with h3 h4
            injection h4 with h5 h6
            exact absurd h6 (by decide)
          | cons z b3 =>
            intro hc
            apply hnostart
            simpa using hc
    rw [if_neg hcond]
    exact congrArg _ (ih hb)

/-- Each digit character written by the renderer reads back as its value. -/
theorem digitVal_digitChar : ∀ k, k < 10 → digitVal (Nat.digitChar k) = some k := by decide

/-- `indexOf true` is exactly the first flagged position: if position `i`
holds `true` and every earlier position holds `false`, the scan of
`face_match.index(True)` lands on `i`. -/
theorem firstTrue_indexOf :
    ∀ (m : List Bool) (i : Nat), i < m.length → m.getD i false = true →
      (∀ j, j < i → m.getD j false = false) →
      true ∈ m ∧ m.indexOf true = i := by
  intro m
  induction m with
  | nil => intro i hi; simp at hi
  | cons b rest ih =>
    intro i hi ht hf
    cases i with
    | zero =>
      have hb : b = true := by simpa using ht
      subst hb
      exact ⟨List.mem_cons_self _ _, List.indexOf_cons_self _ _⟩
    | succ j =>
      have hb : b = false := by simpa using hf 0 (Nat.succ_pos j)
      subst hb
      have hrest := ih j (by simpa using hi) (by simpa using ht)
        (fun k hk => by simpa using hf (k + 1) (Nat.succ_lt_succ hk))
      refine ⟨List.mem_cons_of_mem _ hrest.1, ?_⟩
      rw [List.indexOf_cons_ne _ (by simp), hrest.2]

/-- A boolean list with `false` at every position does not contain `true`. -/
theorem not_mem_of_all_false :
    ∀ m : List Bool, (∀ i, i < m.length → m.getD i false = false) → true ∉ m := by
  intro m
  induction m with
  | nil => intro _; simp
  | cons b rest ih =>
    intro h hmem
    have hb : b = false := by simpa using h 0 (Nat.succ_pos _)
    subst hb
    rcases List.mem_cons.mp hmem with h0 | h1
    · exact absurd h0.symm (by simp)
    · exact ih (fun i hi => by simpa using h (i + 1) (Nat.succ_lt_succ hi)) h1

/-- The debounce guard, spelled out: absent, or at least a second elapsed. -/
theorem shouldRecord_iff (p : String) (now : DateTime)
    (records : String → Option DateTime) :
    shouldRecord p now records = true ↔
      (records p = none ∨
        ∃ last, records p = some last ∧ 1000000 ≤ now.absMicro - last.absMicro) := by
  unfold shouldRecord
  cases h : records p with
  | none => simp
  | some last => simp [h]

/-- `record_attendance` when the guard passes. -/
theorem record_attendance_pos (p : String) (now : DateTime) (st : LedgerState)
    (h : shouldRecord p now st.records = true) :
    record_attendance p now st =
      { rows := st.rows ++ [csvRow p now],
        records := fun n => if n = p then some now else st.records n } := by
  unfold record_attendance
  rw [if_pos h]

/-- `record_attendance` when the guard fails. -/
theorem record_attendance_neg (p : String) (now : DateTime) (st : LedgerState)
    (h : ¬ shouldRecord p now st.records = true) :
    record_attendance p now st = st := by
  unfold record_attendance
  rw [if_neg h]

section PipelineLemmas

variable {Image Emb : Type}

/-- `process_face` when a flagged reference exists and its distance beats
the threshold: the label is the stripped reference label and the ledger is
invoked on it. -/
theorem process_face_accept (mp : Emb → Emb → Bool) (d : Emb → Emb → ℚ)
    (refs : List Emb) (labels : List String) (fs : ℚ) (q : Emb)
    (now : DateTime) (st : LedgerState) (i : Nat)
    (hbmi : best_match_index mp refs q = some i)
    (hd : (face_distance_list d refs q).getD i 0 < fs) :
    process_face mp d refs labels fs q now st =
      (pyRemoveJpg (labels.getD i ""),
       record_attendance (pyRemoveJpg (labels.getD i "")) now st) := by
  simp only [process_face, hbmi]
  rw [if_pos hd]

/-- `process_face` when the first flagged reference is at or beyond the
threshold: label `"Unknown"`, ledger untouched. -/
theorem process_face_reject_dist (mp : Emb → Emb → Bool) (d : Emb → Emb → ℚ)
    (refs : List Emb) (labels : List String) (fs : ℚ) (q : Emb)
    (now : DateTime) (st : LedgerState) (i : Nat)
    (hbmi : best_match_index mp refs q = some i)
    (hd : ¬ (face_distance_list d refs q).getD i 0 < fs) :
    process_face mp d refs labels fs q now st = ("Unknown", st) := by
  simp only [process_face, hbmi]
  rw [if_neg hd]

/-- `process_face` when no reference is flagged: label `"Unknown"`, ledger
untouched. -/
theorem process_face_no_flag (mp : Emb → Emb → Bool) (d : Emb → Emb → ℚ)
    (refs : List Emb) (labels : List String) (fs : ℚ) (q : Emb)
    (now : DateTime) (st : LedgerState)
    (hbmi : best_match_index mp refs q = none) :
    process_face mp d refs labels fs q now st = ("Unknown", st) := by
  simp only [process_face, hbmi]

/-- `best_match_index` lands on the first flagged position. -/
theorem best_match_index_eq_first (mp : Emb → Emb → Bool) (refs : List Emb)
    (q : Emb) (i : Nat) (hi : i < (compare_faces mp refs q).length)
    (ht : (compare_faces mp refs q).getD i false = true)
    (hf : ∀ j, j < i → (compare_faces mp refs q).getD j false = false) :
    best_match_index mp refs q = some i := by
  obtain ⟨hmem, hidx⟩ := firstTrue_indexOf (compare_faces mp refs q) i hi ht hf
  unfold best_match_index
  rw [if_pos hmem, hidx]

/-- `best_match_index` is `none` when no position is flagged. -/
theorem best_match_index_eq_none (mp : Emb → Emb → Bool) (refs : List Emb)
    (q : Emb)
    (hf : ∀ i, i < (compare_faces mp refs q).length →
      (compare_faces mp refs q).getD i false = false) :
    best_match_index mp refs q = none := by
  unfold best_match_index
  rw [if_neg (not_mem_of_all_false _ hf)]

end PipelineLemmas

/-! ## The claims -/

/-- C3.  `initialize_csv` is idempotent: on an absent file it creates
exactly the header row `Name,Date,Time`; an existing file is left entirely
unchanged, so a second call never alters the file beyond the first. -/
theorem initialize_csv_idempotent :
    (∀ f, initialize_csv (initialize_csv f) = initialize_csv f) ∧
    initialize_csv none = some [["Name", "Date", "Time"]] ∧
    (∀ rows, initialize_csv (some rows) = some rows) := by
  refine ⟨?_, rfl, fun rows => rfl⟩
  intro f
  cases f <;> rfl

/-- C4.  When the detection collaborator raises an index-out-of-range
failure on a frame, `process_frame` catches it, logs a message, and returns
the frame unannotated with the ledger untouched: the failure never
propagates out of the loop. -/
theorem process_frame_detector_failure {Emb : Type}
    (detector : Nat → Except String (List ((Nat × Nat × Nat × Nat) × Emb)))
    (mp : Emb → Emb → Bool) (d : Emb → Emb → ℚ)
    (refs : List Emb) (labels : List String)
    (now : DateTime) (scale fs : ℚ) (frame : Frame) (st : LedgerState)
    (msg : String) (h : detector frame.image = .error msg) :
    process_frame detector mp d refs labels now scale fs frame st =
      (frame, st, ["No Face Detected " ++ msg]) := by
  simp only [process_frame, h]

/-- Witness for C4: a detector that raises on every frame. -/
theorem process_frame_detector_failure_witness :
    process_frame (fun _ => .error "list index out of range")
        mpAll dSecondCloser [0, 1] ["A.jpg", "B.jpg"] dt0 (4/5) (1/2)
        ⟨7, []⟩ st0 =
      (⟨7, []⟩, st0, ["No Face Detected list index out of range"]) :=
  process_frame_detector_failure (fun _ => .error "list index out of range")
    mpAll dSecondCloser [0, 1] ["A.jpg", "B.jpg"] dt0 (4/5) (1/2)
    ⟨7, []⟩ st0 "list index out of range" rfl

/-- C6.  A face that is not accepted — no reference flagged, or the first
flagged reference at or beyond `face_score`, and in particular whenever the
reference list is empty — is labelled `"Unknown"` and the ledger is
untouched: no row is appended and the last-seen map is unchanged. -/
theorem process_face_reject_no_ledger {Emb : Type} (mp : Emb → Emb → Bool)
    (d : Emb → Emb → ℚ) (refs : List Emb) (labels : List String) (fs : ℚ)
    (q : Emb) (now : DateTime) (st : LedgerState) :
    ((∀ i, best_match_index mp refs q = some i →
        ¬ (face_distance_list d refs q).getD i 0 < fs) →
      process_face mp d refs labels fs q now st = ("Unknown", st)) ∧
    (refs = [] → process_face mp d refs labels fs q now st = ("Unknown", st)) := by
  constructor
  · intro h
    cases hbmi : best_match_index mp refs q with
    | none => exact process_face_no_flag mp d refs labels fs q now st hbmi
    | some i =>
      exact process_face_reject_dist mp d refs labels fs q now st i hbmi (h i hbmi)
  · intro h
    subst h
    exact process_face_no_flag mp d [] labels fs q now st rfl

/-- Witness for C6: with an empty reference list a live face is labelled
`"Unknown"` and the ledger state object is returned unchanged. -/
theorem process_face_reject_no_ledger_witness :
    process_face mpAll dSecondCloser [] ["A.jpg"] (1/2) 0 dt0 st0 =
      ("Unknown", st0) :=
  (process_face_reject_no_ledger mpAll dSecondCloser [] ["A.jpg"] (1/2) 0 dt0 st0).2 rfl

/-- C1, counterexample.  With references `[0, 1]`, both flagged by the match
predicate, distances `[4, 1]` and threshold `10`: the minimum-distance
reference is index `1`, it is flagged and strictly under the threshold, yet
the label `process_frame`'s kernel chooses is not that reference's label —
the code takes `face_match.index(True)`, the first flagged index, not the
argmin of the distances. -/
theorem process_face_argmin_counterexample :
    argminIdx (face_distance_list dSecondCloser [0, 1] 0) = some 1 ∧
    (compare_faces mpAll [0, 1] 0).getD 1 false = true ∧
    (face_distance_list dSecondCloser [0, 1] 0).getD 1 0 < 10 ∧
    (process_face mpAll dSecondCloser [0, 1] ["A.jpg", "B.jpg"] 10 0 dt0 st0).1 ≠
      pyRemoveJpg (["A.jpg", "B.jpg"].getD 1 "") := by
  decide

/-- C1, amended: the chosen label is governed by the FIRST reference the
match predicate flags, not by the argmin of the distances.  If `i` is the
first flagged index, the face is labelled with that reference's label
(`".jpg"` occurrences removed) exactly when its distance is strictly below
`face_score`, and `"Unknown"` otherwise; when no reference is flagged the
label is `"Unknown"` regardless of the distances. -/
theorem process_face_first_flag_label {Emb : Type} (mp : Emb → Emb → Bool)
    (d : Emb → Emb → ℚ) (refs : List Emb) (labels : List String) (fs : ℚ)
    (q : Emb) (now : DateTime) (st : LedgerState) :
    (∀ i, i < (compare_faces mp refs q).length →
      (compare_faces mp refs q).getD i false = true →
      (∀ j, j < i → (compare_faces mp refs q).getD j false = false) →
      (((face_distance_list d refs q).getD i 0 < fs →
          (process_face mp d refs labels fs q now st).1 =
            pyRemoveJpg (labels.getD i "")) ∧
       (¬ (face_distance_list d refs q).getD i 0 < fs →
          (process_face mp d refs labels fs q now st).1 = "Unknown"))) ∧
    ((∀ i, i < (compare_faces mp refs q).length →
        (compare_faces mp refs q).getD i false = false) →
      (process_face mp d refs labels fs q now st).1 = "Unknown") := by
  constructor
  · intro i hi ht hf
    have hbmi := best_match_index_eq_first mp refs q i hi ht hf
    constructor
    · intro hd
      rw [process_face_accept mp d refs labels fs q now st i hbmi hd]
    · intro hd
      rw [process_face_reject_dist mp d refs labels fs q now st i hbmi hd]
  · intro hall
    rw [process_face_no_flag mp d refs labels fs q now st
      (best_match_index_eq_none mp refs q hall)]

/-- Witness for the amended C1, on the counterexample's data: the first
flagged index is `0`, its distance `4` is under the threshold `10`, and the
chosen label is reference `0`'s label even though reference `1` is closer. -/
theorem process_face_first_flag_label_witness :
    (process_face mpAll dSecondCloser [0, 1] ["A.jpg", "B.jpg"] 10 0 dt0 st0).1 =
      pyRemoveJpg (["A.jpg", "B.jpg"].getD 0 "") :=
  ((process_face_first_flag_label mpAll dSecondCloser [0, 1] ["A.jpg", "B.jpg"]
      10 0 dt0 st0).1 0 (by decide) (by decide)
      (fun j hj => absurd hj (by omega))).1 (by decide)

/-- C7, counterexample.  `replace('.jpg', '')` removes every occurrence of
`".jpg"`, not only a trailing suffix: a reference file named `"a.jpg.jpg"`
is accepted, and the name passed to the ledger is `"a"`, not the
suffix-stripped `"a.jpg"`. -/
theorem display_name_counterexample :
    (process_face mpAll dSecondCloser [0] ["a.jpg.jpg"] 10 0 dt0 st0).1 ≠
      stripTrailingJpg "a.jpg.jpg" := by
  decide

/-- C7, amended: for every accepted match the display name passed to the
ledger is the matched reference label with every leftmost, non-overlapping
occurrence of `".jpg"` removed; this coincides with stripping the trailing
`".jpg"` extension exactly on labels in which `".jpg"` occurs nowhere else. -/
theorem display_name_removes_all_jpg {Emb : Type} (mp : Emb → Emb → Bool)
    (d : Emb → Emb → ℚ) (refs : List Emb) (labels : List String) (fs : ℚ)
    (q : Emb) (now : DateTime) (st : LedgerState) (i : Nat) (base : List Char) :
    (best_match_index mp refs q = some i →
      (face_distance_list d refs q).getD i 0 < fs →
      (process_face mp d refs labels fs q now st).1 =
        pyRemoveJpg (labels.getD i "")) ∧
    ((labels.getD i "").data = base ++ jpgPat → hasJpg base = false →
      pyRemoveJpg (labels.getD i "") = String.mk base) := by
  constructor
  · intro hbmi hd
    rw [process_face_accept mp d refs labels fs q now st i hbmi hd]
  · intro hdata hno
    unfold pyRemoveJpg
    rw [hdata, stripJpg_append_jpg base hno]

/-- Witness for the amended C7: reference label `"alice.jpg"`, in which
`".jpg"` occurs only as the trailing suffix, yields display name `"alice"`. -/
theorem display_name_removes_all_jpg_witness :
    (process_face mpAll dSecondCloser [0] ["alice.jpg"] 10 0 dt0 st0).1 =
      String.mk ['a', 'l', 'i', 'c', 'e'] := by
  have h := display_name_removes_all_jpg mpAll dSecondCloser [0] ["alice.jpg"]
    10 0 dt0 st0 0 ['a', 'l', 'i', 'c', 'e']
  exact (h.1 (by decide) (by decide)).trans (h.2 (by decide) (by decide))

/-- C2.  A `record_attendance` call appends the formatted row and sets the
last-seen entry to `now` exactly when the name is absent from the map or at
least one second has elapsed since the stored instant; consequently, from a
fresh name, two calls under a second apart append exactly one row and two
calls at least a second apart append two. -/
theorem record_attendance_debounce :
    (∀ p now st,
      ((record_attendance p now st).rows = st.rows ++ [csvRow p now] ∧
       (record_attendance p now st).records p = some now) ↔
      (st.records p = none ∨
        ∃ last, st.records p = some last ∧
          1000000 ≤ now.absMicro - last.absMicro)) ∧
    (∀ p t1 t2 st, st.records p = none →
      (t2.absMicro - t1.absMicro < 1000000 →
        (record_attendance p t2 (record_attendance p t1 st)).rows =
          st.rows ++ [csvRow p t1]) ∧
      (1000000 ≤ t2.absMicro - t1.absMicro →
        (record_attendance p t2 (record_attendance p t1 st)).rows =
          st.rows ++ [csvRow p t1] ++ [csvRow p t2])) := by
  constructor
  · intro p now st
    constructor
    · rintro ⟨hrows, _⟩
      by_contra hcond
      have hs : ¬ shouldRecord p now st.records = true := by
        rw [shouldRecord_iff]; exact hcond
      rw [record_attendance_neg p now st hs] at hrows
      have hlen := congrArg List.length hrows
      simp at hlen
    · intro hcond
      have hs : shouldRecord p now st.records = true :=
        (shouldRecord_iff p now st.records).mpr hcond
      rw [record_attendance_pos p now st hs]
      exact ⟨rfl, by simp⟩
  · intro p t1 t2 st hnone
    have hs1 : shouldRecord p t1 st.records = true :=
      (shouldRecord_iff p t1 st.records).mpr (Or.inl hnone)
    have hst1 := record_attendance_pos p t1 st hs1
    have hrec1 : (record_attendance p t1 st).records p = some t1 := by
      rw [hst1]; simp
    constructor
    · intro hlt
      have hs2 : ¬ shouldRecord p t2 (record_attendance p t1 st).records = true := by
        rw [shouldRecord_iff]
        rintro (h1 | ⟨last, hl, hge⟩)
        · rw [hrec1] at h1; exact Option.noConfusion h1
        · rw [hrec1] at hl
          have : last = t1 := (Option.some.inj hl).symm
          subst this
          omega
      rw [record_attendance_neg _ _ _ hs2, hst1]
    · intro hge
      have hs2 : shouldRecord p t2 (record_attendance p t1 st).records = true := by
        rw [shouldRecord_iff]
        exact Or.inr ⟨t1, hrec1, hge⟩
      rw [record_attendance_pos _ _ _ hs2, hst1]

/-- A second observed instant, half a second after `dt0`. -/
def dtHalf : DateTime := ⟨2024, 10, 12, 9, 30, 5, 1000500000⟩

/-- A third observed instant, a second and a half after `dt0`. -/
def dtLater : DateTime := ⟨2024, 10, 12, 9, 30, 6, 1001500000⟩

/-- Witness for C2: from a fresh ledger, a second call half a second later
appends nothing, while a second call a second and a half later appends a
second row. -/
theorem record_attendance_debounce_witness :
    (record_attendance "alice" dtHalf (record_attendance "alice" dt0 st0)).rows =
      st0.rows ++ [csvRow "alice" dt0] ∧
    (record_attendance "alice" dtLater (record_attendance "alice" dt0 st0)).rows =
      st0.rows ++ [csvRow "alice" dt0] ++ [csvRow "alice" dtLater] := by
  have h1 := record_attendance_debounce.2 "alice" dt0 dtHalf st0 rfl
  have h2 := record_attendance_debounce.2 "alice" dt0 dtLater st0 rfl
  exact ⟨h1.1 (by decide), h2.2 (by decide)⟩

/-- C8.  When a `record_attendance` call records, the appended row has
exactly 3 fields — the header's column count — and its date and time fields
parse back to the calendar fields of the very instant the call observed,
to one-second precision (the microsecond part is not rendered). -/
theorem record_attendance_csv_roundtrip (p : String) (now : DateTime)
    (st : LedgerState) (hs : shouldRecord p now st.records = true)
    (hy : now.year < 10000) (hmo : now.month < 100) (hda : now.day < 100)
    (hh : now.hour < 100) (hmi : now.minute < 100) (hse : now.second < 100) :
    (record_attendance p now st).rows = st.rows ++ [csvRow p now] ∧
    (csvRow p now).length = 3 ∧
    parseDate (formatDate now) = some (now.year, now.month, now.day) ∧
    parseTime (formatTime now) = some (now.hour, now.minute, now.second) := by
  refine ⟨by rw [record_attendance_pos p now st hs], rfl, ?_, ?_⟩
  · have h1 := digitVal_digitChar (now.year / 1000) (by omega)
    have h2 := digitVal_digitChar (now.year / 100 % 10) (by omega)
    have h3 := digitVal_digitChar (now.year / 10 % 10) (by omega)
    have h4 := digitVal_digitChar (now.year % 10) (by omega)
    have h5 := digitVal_digitChar (now.month / 10) (by omega)
    have h6 := digitVal_digitChar (now.month % 10) (by omega)
    have h7 := digitVal_digitChar (now.day / 10) (by omega)
    have h8 := digitVal_digitChar (now.day % 10) (by omega)
    simp only [formatDate, parseDate, pad4, pad2, List.cons_append,
      List.nil_append, h1, h2, h3, h4, h5, h6, h7, h8]
    rw [if_pos (by trivial)]
    congr 1
    refine Prod.ext ?_ (Prod.ext ?_ ?_) <;> simp <;> omega
  · have h1 := digitVal_digitChar (now.hour / 10) (by omega)
    have h2 := digitVal_digitChar (now.hour % 10) (by omega)
    have h3 := digitVal_digitChar (now.minute / 10) (by omega)
    have h4 := digitVal_digitChar (now.minute % 10) (by omega)
    have h5 := digitVal_digitChar (now.second / 10) (by omega)
    have h6 := digitVal_digitChar (now.second % 10) (by omega)
    simp only [formatTime, parseTime, pad2, List.cons_append,
      List.nil_append, h1, h2, h3, h4, h5, h6]
    rw [if_pos (by trivial)]
    congr 1
    refine Prod.ext ?_ (Prod.ext ?_ ?_) <;> simp <;> omega

/-- Witness for C8, at the concrete instant `dt0`. -/
theorem record_attendance_csv_roundtrip_witness :
    (record_attendance "alice" dt0 st0).rows = st0.rows ++ [csvRow "alice" dt0] ∧
    (csvRow "alice" dt0).length = 3 ∧
    parseDate (formatDate dt0) = some (2024, 10, 12) ∧
    parseTime (formatTime dt0) = some (9, 30, 5) :=
  record_attendance_csv_roundtrip "alice" dt0 st0 rfl (by decide) (by decide)
    (by decide) (by decide) (by decide) (by decide)

/-- C10.  A `record_attendance` call leaves every other name's map entry
unchanged; and when it records, the instant stored in the map for the
detected person is the very instant whose date and time are formatted into
the appended row. -/
theorem record_attendance_frame_property (p : String) (now : DateTime)
    (st : LedgerState) :
    (∀ q, q ≠ p → (record_attendance p now st).records q = st.records q) ∧
    (shouldRecord p now st.records = true →
      (record_attendance p now st).records p = some now ∧
      (record_attendance p now st).rows =
        st.rows ++ [[p, formatDate now, formatTime now]]) := by
  constructor
  · intro q hq
    by_cases hs : shouldRecord p now st.records = true
    · rw [record_attendance_pos p now st hs]
      simp only []
      rw [if_neg hq]
    · rw [record_attendance_neg p now st hs]
  · intro hs
    rw [record_attendance_pos p now st hs]
    exact ⟨by simp, rfl⟩

/-- Witness for C10: recording `"alice"` does not touch `"bob"`'s entry,
stores `dt0` for `"alice"`, and appends the row formatted from `dt0`. -/
theorem record_attendance_frame_property_witness :
    (record_attendance "alice" dt0 st0).records "bob" = st0.records "bob" ∧
    (record_attendance "alice" dt0 st0).records "alice" = some dt0 ∧
    (record_attendance "alice" dt0 st0).rows =
      st0.rows ++ [["alice", formatDate dt0, formatTime dt0]] := by
  have h := record_attendance_frame_property "alice" dt0 st0
  exact ⟨h.1 "bob" (by decide), (h.2 rfl).1, (h.2 rfl).2⟩

/-- C5.  On reference images in which the embedding collaborator finds at
least one face, `encode_faces` returns exactly one embedding per image —
the first one returned — in input order; and as soon as one image yields
zero faces, the out-of-range indexing error propagates instead of a result,
aborting startup. -/
theorem encode_faces_one_per_image {Image Emb : Type} [Inhabited Emb]
    (encoder : Image → List Emb) (images : List Image) :
    ((∀ img ∈ images, encoder img ≠ []) →
      encode_faces encoder images =
        .ok (images.map (fun img => (encoder img).headD default))) ∧
    ((∃ img ∈ images, encoder img = []) →
      encode_faces encoder images = .error "list index out of range") := by
  induction images with
  | nil =>
    constructor
    · intro _; rfl
    · rintro ⟨img, hmem, _⟩
      simp at hmem
  | cons img rest ih =>
    constructor
    · intro h
      cases he : encoder img with
      | nil => exact absurd he (h img (List.mem_cons_self img rest))
      | cons e es =>
        simp only [encode_faces, he]
        rw [ih.1 (fun i hi => h i (List.mem_cons_of_mem img hi))]
        simp [he]
    · rintro ⟨i, hi, hnil⟩
      rcases List.mem_cons.mp hi with heq | hmem
      · subst heq
        simp only [encode_faces, hnil]
      · cases he : encoder img with
        | nil => simp only [encode_faces, he]
        | cons e es =>
          simp only [encode_faces, he]
          rw [ih.2 ⟨i, hmem, hnil⟩]

/-- Witness for C5: a collaborator returning one embedding per image gives
one encoding per image in order; one returning none propagates the error. -/
theorem encode_faces_one_per_image_witness :
    encode_faces (fun n : Nat => [n + 1]) [3, 5] = .ok [4, 6] ∧
    encode_faces (fun _ : Nat => ([] : List Nat)) [7] =
      .error "list index out of range" := by
  refine ⟨?_, ?_⟩
  · have h := (encode_faces_one_per_image (fun n : Nat => [n + 1]) [3, 5]).1
      (by decide)
    exact h.trans rfl
  · exact (encode_faces_one_per_image (fun _ : Nat => ([] : List Nat)) [7]).2
      ⟨7, by decide, rfl⟩

/-- Lengths of the loader's accumulating fold. -/
theorem load_foldl_lengths {Image : Type} (decode : String → Image) :
    ∀ (files : List String) (acc : List Image × List String),
      (files.foldl (fun acc file => (acc.1 ++ [decode file], acc.2 ++ [file])) acc).1.length
          = acc.1.length + files.length ∧
      (files.foldl (fun acc file => (acc.1 ++ [decode file], acc.2 ++ [file])) acc).2.length
          = acc.2.length + files.length := by
  intro files
  induction files with
  | nil => intro acc; simp
  | cons f rest ih =>
    intro acc
    rw [List.foldl_cons]
    have h := ih (acc.1 ++ [decode f], acc.2 ++ [f])
    constructor
    · rw [h.1]; simp; omega
    · rw [h.2]; simp; omega

/-- C9.  The parallel-list invariant: the loader returns as many labels as
images; a successful `encode_faces` returns as many encodings as images; and
any index produced by `best_match_index` over the reference encodings is in
range for the labels list whenever the two lists have equal length. -/
theorem parallel_lists_invariant {Image Emb : Type} :
    (∀ (decode : String → Image) (files : List String),
      (load_images_and_labels decode files).1.length =
        (load_images_and_labels decode files).2.length) ∧
    (∀ (encoder : Image → List Emb) (images : List Image) (out : List Emb),
      encode_faces encoder images = .ok out → out.length = images.length) ∧
    (∀ (mp : Emb → Emb → Bool) (refs : List Emb) (labels : List String)
        (q : Emb) (i : Nat),
      labels.length = refs.length → best_match_index mp refs q = some i →
      i < labels.length) := by
  refine ⟨?_, ?_, ?_⟩
  · intro decode files
    have h := load_foldl_lengths decode files ([], [])
    unfold load_images_and_labels
    rw [h.1, h.2]
    rfl
  · intro encoder images
    induction images with
    | nil =>
      intro out h
      simp only [encode_faces] at h
      cases h
      rfl
    | cons img rest ih =>
      intro out h
      simp only [encode_faces] at h
      cases he : encoder img with
      | nil => rw [he] at h; exact Except.noConfusion h
      | cons e es =>
        rw [he] at h
        cases hrest : encode_faces encoder rest with
        | ok es2 =>
          rw [hrest] at h
          cases h
          simp [ih es2 hrest]
        | error msg => rw [hrest] at h; exact Except.noConfusion h
  · intro mp refs labels q i hlen hbmi
    simp only [best_match_index] at hbmi
    split at hbmi
    · rename_i hmem
      cases hbmi
      rw [hlen]
      simpa [compare_faces] using List.indexOf_lt_length.mpr hmem
    · exact Option.noConfusion hbmi

/-- Witness for C9: a successful encoding run has as many outputs as inputs,
and a concrete `best_match_index` result indexes the labels list in range. -/
theorem parallel_lists_invariant_witness :
    ([4, 6] : List Nat).length = ([3, 5] : List Nat).length ∧
    (0 : Nat) < (["A.jpg", "B.jpg"] : List String).length := by
  have h := @parallel_lists_invariant Nat Nat
  exact ⟨h.2.1 (fun n => [n + 1]) [3, 5] [4, 6] rfl,
    h.2.2 mpAll [0, 1] ["A.jpg", "B.jpg"] 0 0 rfl (by decide)⟩
